import Mathlib

/-!
Verification of the statistics-aggregation subsystem (`core/lib/stats2.js`).

The JavaScript module is shallowly embedded as follows:

* JS objects used as string-keyed maps become association lists
  (`Obj α := List (String × α)`); iteration order of a JS object over
  string keys is insertion order, which the list order models.  Lookup
  returns `none` for an absent key, modelling JS `undefined`.
* JS numbers become `ℚ` (the spec only requires exactness up to native
  numeric precision, and every operation here is field arithmetic).
* The HdrHistogram capability is external to the repository.  Modelled
  from the spec: a latency distribution records non-negative numeric
  samples, supports merging (absorbing all samples of another
  distribution), answers `minNonZeroValue` / `maxValue` /
  `getValueAtPercentile` queries, and encodes to / decodes from an
  opaque string such that decoding an encoded distribution yields an
  equivalent distribution.  A distribution is modelled as the list of
  its recorded samples (`Histo := List ℕ`), queries are computed from
  the sorted multiset of samples, and the opaque string codec is an
  explicit injective encoding with a total decoder that rejects
  malformed strings.
* The JSON layer (`JSON.stringify` / `JSON.parse`) is external to the
  repository.  Modelled from the spec: a payload is a structured value
  (`Jv`), i.e. the parse tree of the structured text; text-level parse
  failures belong to the external parser.  Property access `o.k`
  yields `none` (undefined) on objects lacking `k` and on non-object
  non-null values, and throws on `null`.
* Mutation of a `Stats` object's own fields is modelled by explicit
  state passing; question of aliasing between distinct live objects
  (`clone`) is modelled by a small explicit heap further below.
-/

set_option linter.unusedVariables false
set_option linter.unusedTactic false

namespace Stats2

/-! ## JS objects as association lists -/

/-- Association-list model of a JS object used as a string-keyed map. -/
abbrev Obj (α : Type) := List (String × α)

/-- Property read `m[k]`: first binding of `k`, `none` for JS `undefined`. -/
def aGet {α : Type} : Obj α → String → Option α
  | [], _ => none
  | p :: rest, k => if p.1 = k then some p.2 else aGet rest k

/-- Property write `m[k] = v`: overwrite in place if the key exists
(JS objects keep the key's insertion position), else append. -/
def aSet {α : Type} : Obj α → String → α → Obj α
  | [], k, v => [(k, v)]
  | p :: rest, k, v => if p.1 = k then (k, v) :: rest else p :: aSet rest k v

/-- Keys of an object, in insertion order. -/
def keys {α : Type} (m : Obj α) : List String := m.map Prod.fst

/-! ## Latency distributions (external HdrHistogram capability)

Modelled from the spec: the histogram algorithm itself is out of scope;
only its contract (record / merge / min / max / percentile /
encode / decode) is embedded, with a distribution represented by the
list of its recorded samples. -/

/-- Latency distribution: the samples recorded into it, in record order. -/
abbrev Histo := List ℕ

/-- Fresh empty distribution (`HdrHistogram.build` with the module's
fixed configuration; the configuration constants do not affect the
modelled contract). -/
def emptyHisto : Histo := []

/-- Record a sample (`histogram.recordValue(n)`). -/
def histoRecord (h : Histo) (n : ℕ) : Histo := h ++ [n]

/-- Merge another distribution in (`histogram.add(other)`): absorb all
of its samples. -/
def histoAdd (h other : Histo) : Histo := h ++ other

/-- Samples in non-decreasing order; every statistic is computed from
this, so statistics depend only on the multiset of samples. -/
def hSorted (h : Histo) : List ℕ := List.insertionSort (· ≤ ·) h

/-- Smallest non-zero recorded sample (`minNonZeroValue`), 0 if none. -/
def minNonZeroValue (h : Histo) : ℕ := ((hSorted h).filter (fun n => n ≠ 0)).headD 0

/-- Largest recorded sample (`maxValue`), 0 if none. -/
def maxValue (h : Histo) : ℕ := (hSorted h).getLastD 0

/-- Percentile query (`getValueAtPercentile(p)` for `p` in [0,100]):
the sample at rank `max 1 ⌈p·n/100⌉` of the sorted samples, 0 when
empty. -/
def getValueAtPercentile (p : ℕ) (h : Histo) : ℕ :=
  let s := hSorted h
  if s.length = 0 then 0 else s.getD (max 1 ((p * s.length + 99) / 100) - 1) 0

/-- Encoding of one sample run: `n` is written in unary followed by a
terminator, so that the encoding of a sample list is injective. -/
def encodeChars : Histo → List Char
  | [] => []
  | n :: rest => List.replicate n 'I' ++ 'x' :: encodeChars rest

/-- Decoder for the opaque distribution string; `k` is the count of
unary marks read so far.  Returns `none` on any malformed string. -/
def decodeChars : List Char → ℕ → Option Histo
  | [], k => if k = 0 then some [] else none
  | c :: cs, k =>
      if c = 'I' then decodeChars cs (k + 1)
      else if c = 'x' then (decodeChars cs 0).map (fun t => k :: t)
      else none

/-- Opaque compact string for a distribution (`encodeIntoBase64String`). -/
def encodeHisto (h : Histo) : String := String.mk (encodeChars h)

/-- Decode an encoded distribution (`decodeFromCompressedBase64`);
`none` models the decoder throwing on a malformed encoding. -/
def decodeHisto (s : String) : Option Histo := decodeChars s.data 0

/-! ## Stats snapshots (`function Stats()` and its prototype) -/

/-- State of one `Stats` object: `_counters`, `_customStats`, and the
`_encodedHistograms` field that `serialize` installs on the object
(`none` while the field is still JS `undefined`). -/
structure Stats where
  _counters : Obj ℚ
  _customStats : Obj Histo
  _encodedHistograms : Option (Obj String)
deriving DecidableEq

/-- Truthiness of a counter read: JS `!x` is true for `undefined` and `0`. -/
def truthyQ : Option ℚ → Bool
  | none => false
  | some q => decide (q ≠ 0)

/-- Counter bump on a counters object: `if (!m[name]) m[name] = 0;
m[name] += value` (shared by `Stats.prototype.counter` and `combine`). -/
def counterUpd (m : Obj ℚ) (name : String) (v : ℚ) : Obj ℚ :=
  let m0 := if truthyQ (aGet m name) then m else aSet m name 0
  aSet m0 name ((aGet m0 name).getD 0 + v)

/-- Constructor `create()` / `new Stats()`: starts reset. -/
def create : Stats := { _counters := [], _customStats := [], _encodedHistograms := none }

/-- Method `counter(name, value)`. -/
def Stats.counter (s : Stats) (name : String) (v : ℚ) : Stats :=
  { s with _counters := counterUpd s._counters name v }

/-- Method `addCustomStat(name, n)`: lazily create the distribution,
then record `n` into it. -/
def Stats.addCustomStat (s : Stats) (name : String) (n : ℕ) : Stats :=
  let cs0 := if (aGet s._customStats name).isSome then s._customStats
             else aSet s._customStats name emptyHisto
  { s with _customStats := aSet cs0 name (histoRecord ((aGet cs0 name).getD emptyHisto) n) }

/-- Method `reset()`: empty both maps (the `_encodedHistograms` field,
if present, is not cleared by the source). -/
def Stats.reset (s : Stats) : Stats :=
  { s with _customStats := [], _counters := [] }

/-- Method `free()`: a no-op in the source. -/
def Stats.free (s : Stats) : Stats := s

/-- Distribution merge step of `combine`: lazily create the
destination distribution, then `add` the input one into it. -/
def histoMergeInto (m : Obj Histo) (name : String) (h : Histo) : Obj Histo :=
  let m0 := if (aGet m name).isSome then m else aSet m name emptyHisto
  aSet m0 name (histoAdd ((aGet m0 name).getD emptyHisto) h)

/-- Body of `combine`'s outer loop: fold one input snapshot into the
result snapshot. -/
def combineStep (r s : Stats) : Stats :=
  { _counters := s._counters.foldl (fun m p => counterUpd m p.1 p.2) r._counters
    _customStats := s._customStats.foldl (fun m p => histoMergeInto m p.1 p.2) r._customStats
    _encodedHistograms := r._encodedHistograms }

/-- Function `combine(statsObjects)`. -/
def combine (l : List Stats) : Stats := l.foldl combineStep create

/-! ## Rounding -/

/-- JS `Math.round`: nearest integer, ties toward positive infinity. -/
def jsMathRound (q : ℚ) : ℤ := ⌊q + 1/2⌋

/-- Function `round(number, decimals)`. -/
def round (x : ℚ) (d : ℕ) : ℚ := (jsMathRound (x * 10 ^ d) : ℚ) / 10 ^ d

/-! ## Report builder (`Stats.prototype.report`) -/

/-- Check `name.startsWith(pat)` (computed on the character lists; the
core `String.startsWith` is semantically identical but does not reduce
in the kernel). -/
def strStarts (s pat : String) : Bool := pat.data.isPrefixOf s.data

/-- Split off the segment before the first occurrence of `sep`,
returning the remainder after `sep` when it occurs. -/
def splitFirst (sep : List Char) : List Char → List Char × Option (List Char)
  | [] => ([], none)
  | c :: cs =>
      if sep.isPrefixOf (c :: cs) then ([], some ((c :: cs).drop sep.length))
      else
        let r := splitFirst sep cs
        (c :: r.1, r.2)

/-- JS `s.split(sep)[1]` for a non-empty literal separator: the segment
between the first and second occurrences of `sep` (up to the end of the
string when `sep` occurs only once); `none` (JS `undefined`) when `sep`
does not occur. -/
def jsSplitSnd (s sep : String) : Option String :=
  match splitFirst sep.data s.data with
  | (_, none) => none
  | (_, some rest) => some (String.mk (splitFirst sep.data rest).1)

/-- Latency block of the report, computed from the
`engine.http.response_time` distribution. -/
structure LatencyReport where
  min : ℚ
  max : ℚ
  median : ℚ
  p95 : ℚ
  p99 : ℚ
deriving DecidableEq

/-- Entry of the report's `customStats` block. -/
structure CustomStatReport where
  min : ℚ
  max : ℚ
  median : ℚ
  p75 : ℚ
  p95 : ℚ
  p99 : ℚ
deriving DecidableEq

/-- Requests-per-second block.  `mean` is `none` exactly when `count`
is: JS computes `undefined / 10 = NaN` there, and `none` stands for
that non-value. -/
structure RpsReport where
  count : Option ℚ
  mean : Option ℚ
deriving DecidableEq

/-- Shape of the object returned by `report()`, minus the wall-clock
`timestamp` field (external real time, outside the embedding; every
claim compares reports timestamp aside). -/
structure Report where
  scenariosCreated : Option ℚ
  scenarioCounts : Obj ℚ
  scenariosCompleted : Option ℚ
  requestsCompleted : Option ℚ
  latency : LatencyReport
  rps : RpsReport
  errors : Obj ℚ
  codes : Obj ℚ
  /-- Report field `matches` of the source (renamed here because
  `matches` is reserved in Lean). -/
  matchesCount : Option ℚ
  customStats : Obj CustomStatReport
  counters : Obj ℚ
  scenariosAvoided : Option ℚ
deriving DecidableEq

/-- Failure of `report()`: reading `minNonZeroValue` of
`this._customStats['engine.http.response_time']` throws a `TypeError`
when that distribution was never created. -/
inductive ReportError where
  | missingResponseTime
deriving DecidableEq

/-- Latency block from a distribution. -/
def latencyOf (h : Histo) : LatencyReport :=
  { min := round (minNonZeroValue h : ℚ) 1
    max := round (maxValue h : ℚ) 1
    median := round (getValueAtPercentile 50 h : ℚ) 1
    p95 := round (getValueAtPercentile 95 h : ℚ) 1
    p99 := round (getValueAtPercentile 99 h : ℚ) 1 }

/-- Entry of `customStats` from a distribution. -/
def customStatOf (h : Histo) : CustomStatReport :=
  { min := round (minNonZeroValue h : ℚ) 1
    max := round (maxValue h : ℚ) 1
    median := round (getValueAtPercentile 50 h : ℚ) 1
    p75 := round (getValueAtPercentile 75 h : ℚ) 1
    p95 := round (getValueAtPercentile 95 h : ℚ) 1
    p99 := round (getValueAtPercentile 99 h : ℚ) 1 }

/-- Generic namespace-projection loop of `report()`: for every counter
whose key passes `cond`, write its value into a fresh object under the
key derived by `der`. -/
def projectCounters (cond : String → Bool) (der : String → String) (m : Obj ℚ) : Obj ℚ :=
  m.foldl (fun acc p => if cond p.1 then aSet acc (der p.1) p.2 else acc) []

/-- Key derivation `name.split(sep)[1]` used as an object key: JS
coerces the `undefined` of a separator-free string to the literal key
`"undefined"`. -/
def derivedKey (sep : String) (name : String) : String :=
  (jsSplitSnd name sep).getD "undefined"

/-- Report block `scenarioCounts`. -/
def scenarioCountsOf (m : Obj ℚ) : Obj ℚ :=
  projectCounters (fun n => strStarts n "scenarios.created.")
    (derivedKey "scenarios.created.") m

/-- Report block `errors`. -/
def errorsOf (m : Obj ℚ) : Obj ℚ :=
  projectCounters (fun n => strStarts n "errors.") (derivedKey "errors.") m

/-- Report block `codes`: note the source tests
`startsWith('engine.http.response_code')` without a trailing dot, but
derives the key by splitting on `'response_code.'` with the dot. -/
def codesOf (m : Obj ℚ) : Obj ℚ :=
  projectCounters (fun n => strStarts n "engine.http.response_code")
    (derivedKey "response_code.") m

/-- Method `report()`, timestamp aside.  The source throws (TypeError)
at the latency block when the `engine.http.response_time` distribution
is absent; fields computed before the throw are discarded with the
exception, so the error model is faithful observationally. -/
def Stats.report (s : Stats) : Except ReportError Report :=
  match aGet s._customStats "engine.http.response_time" with
  | none => .error .missingResponseTime
  | some ns =>
      .ok
        { scenariosCreated := aGet s._counters "scenarios.created"
          scenarioCounts := scenarioCountsOf s._counters
          scenariosCompleted := aGet s._counters "scenarios.completed"
          requestsCompleted := aGet s._counters "engine.http.responses_received"
          latency := latencyOf ns
          rps :=
            { count := aGet s._counters "engine.http.responses_received"
              mean := (aGet s._counters "engine.http.responses_received").map
                        (fun q => q / 10) }
          errors := errorsOf s._counters
          codes := codesOf s._counters
          matchesCount := aGet s._counters "matches"
          customStats := s._customStats.foldl
            (fun acc p => aSet acc p.1 (customStatOf p.2)) []
          counters := s._counters
          scenariosAvoided := aGet s._counters "scenarios.skipped" }

/-! ## Serialization (`serialize`, `deserialize`)

Modelled from the spec at the structured-value level: the payload is
the parse tree of the structured text, so `JSON.stringify ∘ JSON.parse`
is the identity on payloads and text-level parse failures belong to the
external JSON parser. -/

/-- Structured (JSON) values. -/
inductive Jv where
  | num (q : ℚ)
  | str (s : String)
  | boolean (b : Bool)
  | null
  | obj (fields : List (String × Jv))
  | arr (elems : List Jv)

/-- Property access `p.k` on a parsed value: a field of an object,
JS `undefined` (`none`) on objects lacking the field and on non-object
values.  Access on `null` throws and is handled by the caller. -/
def jvField (p : Jv) (k : String) : Option Jv :=
  match p with
  | .obj fs => aGet fs k
  | _ => none

/-- Method `serialize()`: stores the encoded-histogram cache in the
`_encodedHistograms` field of the object itself, then returns the
payload `{counters, encodedHistograms}`.  The first component is the
mutated object, the second the payload. -/
def Stats.serialize (s : Stats) : Stats × Jv :=
  let enc : Obj String :=
    s._customStats.foldl (fun acc p => aSet acc p.1 (encodeHisto p.2)) []
  (⟨s._counters, s._customStats, some enc⟩,
   Jv.obj [("counters", Jv.obj (s._counters.map (fun p => (p.1, Jv.num p.2)))),
           ("encodedHistograms", Jv.obj (enc.map (fun p => (p.1, Jv.str p.2))))])

/-- Failures of `deserialize`: property access on a `null` payload
throws a `TypeError`; a histogram entry that cannot be decoded makes
the decoder throw. -/
inductive DeserializeError where
  | typeError
  | malformedHistogram
deriving DecidableEq

/-- Result of `deserialize`: the object built by `create()` with
`_counters` assigned verbatim from `o.counters` (kept as the raw parsed
value, `none` for JS `undefined`) and `_customStats` assigned the
decoded histograms. -/
structure DeStats where
  rawCounters : Option Jv
  histos : Obj Histo

/-- Decode of one histogram entry: the decoder accepts only a string
holding a valid encoding and throws otherwise. -/
def decodeEntry (v : Jv) : Except DeserializeError Histo :=
  match v with
  | .str s =>
      match decodeHisto s with
      | some h => .ok h
      | none => .error .malformedHistogram
  | _ => .error .malformedHistogram

/-- Lodash reduce over an object's fields, decoding each into `acc`. -/
def decodeObjFields (acc : Obj Histo) : List (String × Jv) → Except DeserializeError (Obj Histo)
  | [] => .ok acc
  | p :: rest =>
      match decodeEntry p.2 with
      | .error e => .error e
      | .ok h => decodeObjFields (aSet acc p.1 h) rest

/-- Lodash reduce over an array iterates elements under their numeric
index (coerced to a string object key). -/
def decodeArrElems (acc : Obj Histo) (i : ℕ) : List Jv → Except DeserializeError (Obj Histo)
  | [] => .ok acc
  | v :: rest =>
      match decodeEntry v with
      | .error e => .error e
      | .ok h => decodeArrElems (aSet acc (toString i) h) (i + 1) rest

/-- Lodash reduce over a string iterates its characters (array-like)
under their numeric index; each one-character string is fed to the
decoder. -/
def decodeStrChars (acc : Obj Histo) (i : ℕ) : List Char → Except DeserializeError (Obj Histo)
  | [] => .ok acc
  | c :: rest =>
      match decodeEntry (.str (String.mk [c])) with
      | .error e => .error e
      | .ok h => decodeStrChars (aSet acc (toString i) h) (i + 1) rest

/-- The `L.reduce(o.encodedHistograms, decode, {})` step: `undefined`,
`null` and primitive numbers/booleans are empty collections for lodash;
objects are iterated by field, arrays by element, strings by character. -/
def decodeAll : Option Jv → Except DeserializeError (Obj Histo)
  | none => .ok []
  | some (.obj fs) => decodeObjFields [] fs
  | some (.arr es) => decodeArrElems [] 0 es
  | some (.str s) => decodeStrChars [] 0 s.data
  | some (.num _) => .ok []
  | some (.boolean _) => .ok []
  | some .null => .ok []

/-- Function `deserialize(serialized)`, from the parsed payload on. -/
def deserialize (p : Jv) : Except DeserializeError DeStats :=
  match p with
  | .null => .error .typeError
  | _ =>
      match decodeAll (jvField p "encodedHistograms") with
      | .error e => .error e
      | .ok hs => .ok { rawCounters := jvField p "counters", histos := hs }

/-- Read a parsed object back as a counters map; defined exactly when
every field is numeric. -/
def countersOfJv : List (String × Jv) → Option (Obj ℚ)
  | [] => some []
  | (k, Jv.num q) :: rest => (countersOfJv rest).map (fun t => (k, q) :: t)
  | _ => none

/-- Identify a deserialized object with a model `Stats` when its
`_counters` member is a map of numbers; otherwise (`undefined` or a
non-map value assigned verbatim by the source) the object lies outside
this model's `Stats` state space — every later `report()` call on it
would throw. -/
def DeStats.toStats (d : DeStats) : Option Stats :=
  match d.rawCounters with
  | some (.obj fs) =>
      (countersOfJv fs).map
        (fun cm => { _counters := cm, _customStats := d.histos, _encodedHistograms := none })
  | _ => none

/-! ## Heap model for `clone()`

`L.cloneDeep(this)` duplicates the counters object, the `_customStats`
object and every histogram it references.  Aliasing between the clone
and the original is invisible to pure state passing, so the two live
objects are modelled in a small explicit heap: addresses are indices
into per-kind stores, a `Stats` object holds the address of its
counters object and of its `_customStats` object, and a `_customStats`
object maps names to histogram addresses. -/

/-- References held by one live `Stats` object. -/
structure StatsRef where
  countersRef : ℕ
  cstatRef : ℕ
deriving DecidableEq

/-- The heap: stores for counters objects, `_customStats` objects and
histogram objects.  An address is an index; allocation appends. -/
structure Heap where
  counterObjs : List (Obj ℚ)
  cstatObjs : List (Obj ℕ)
  histoObjs : List Histo
deriving DecidableEq

/-- Dereference the counters object of `s`. -/
def Heap.readCounters (h : Heap) (s : StatsRef) : Obj ℚ :=
  h.counterObjs.getD s.countersRef []

/-- Dereference the `_customStats` object of `s` (name → histogram address). -/
def Heap.readCstat (h : Heap) (s : StatsRef) : Obj ℕ :=
  h.cstatObjs.getD s.cstatRef []

/-- Dereference the full distribution state of `s`. -/
def Heap.readHistos (h : Heap) (s : StatsRef) : Obj Histo :=
  (h.readCstat s).map (fun p => (p.1, h.histoObjs.getD p.2 []))

/-- The snapshot value a live object currently denotes. -/
def Heap.viewStats (h : Heap) (s : StatsRef) : Stats :=
  { _counters := h.readCounters s, _customStats := h.readHistos s, _encodedHistograms := none }

/-- Report of the snapshot a live object currently denotes. -/
def Heap.reportOf (h : Heap) (s : StatsRef) : Except ReportError Report :=
  (h.viewStats s).report

/-- Method `counter(name, v)` on a live object: mutates the counters
object in place. -/
def Heap.counterMut (h : Heap) (s : StatsRef) (name : String) (v : ℚ) : Heap :=
  { h with counterObjs :=
      h.counterObjs.set s.countersRef (counterUpd (h.readCounters s) name v) }

/-- Method `addCustomStat(name, n)` on a live object: either record
into the existing histogram object, or allocate a fresh histogram,
link it under `name`, and record into it. -/
def Heap.addStatMut (h : Heap) (s : StatsRef) (name : String) (n : ℕ) : Heap :=
  let cs := h.readCstat s
  match aGet cs name with
  | some a =>
      { h with histoObjs := h.histoObjs.set a (histoRecord (h.histoObjs.getD a []) n) }
  | none =>
      let a := h.histoObjs.length
      { h with
          histoObjs := h.histoObjs ++ [histoRecord emptyHisto n]
          cstatObjs := h.cstatObjs.set s.cstatRef (aSet cs name a) }

/-- Mutations the load generator applies to a live snapshot. -/
inductive MutOp where
  | counterOp (name : String) (v : ℚ)
  | statOp (name : String) (n : ℕ)
  | freeOp
deriving DecidableEq

/-- Apply one mutation to the live object `s` (`free()` is a no-op). -/
def Heap.applyMut (h : Heap) (s : StatsRef) : MutOp → Heap
  | .counterOp name v => h.counterMut s name v
  | .statOp name n => h.addStatMut s name n
  | .freeOp => h

/-- Deep-copy of the histograms referenced by a `_customStats` object:
allocate a copy of each referenced histogram at the end of the store,
returning the rebuilt object and the extended store. -/
def allocCopies (hs : List Histo) : Obj ℕ → Obj ℕ × List Histo
  | [] => ([], hs)
  | p :: rest =>
      let a := hs.length
      let r := allocCopies (hs ++ [hs.getD p.2 []]) rest
      ((p.1, a) :: r.1, r.2)

/-- Method `clone()` (`L.cloneDeep(this)`): fresh counters object with
the same contents, fresh `_customStats` object whose every histogram
reference points at a fresh copy. -/
def Heap.cloneStats (h : Heap) (s : StatsRef) : StatsRef × Heap :=
  let r := allocCopies h.histoObjs (h.readCstat s)
  (⟨h.counterObjs.length, h.cstatObjs.length⟩,
   { counterObjs := h.counterObjs ++ [h.readCounters s]
     cstatObjs := h.cstatObjs ++ [r.1]
     histoObjs := r.2 })

/-- Well-formedness of a live reference: all addresses in bounds. -/
def ValidRef (h : Heap) (s : StatsRef) : Prop :=
  s.countersRef < h.counterObjs.length ∧ s.cstatRef < h.cstatObjs.length ∧
    ∀ p ∈ h.readCstat s, p.2 < h.histoObjs.length

instance (h : Heap) (s : StatsRef) : Decidable (ValidRef h s) := by
  unfold ValidRef; infer_instance

/-! ## Snapshots reachable through the generator interface -/

/-- One call of the load-generator boundary used to build a snapshot. -/
inductive BuildOp where
  | counterOp (name : String) (v : ℚ)
  | statOp (name : String) (n : ℕ)

/-- Apply one generator call. -/
def applyBuild (s : Stats) : BuildOp → Stats
  | .counterOp name v => s.counter name v
  | .statOp name n => s.addCustomStat name n

/-- Snapshot built from `create()` by a sequence of `counter` /
`addCustomStat` calls. -/
def build (ops : List BuildOp) : Stats := ops.foldl applyBuild create

/-! ## Lemmas: object lookup and update -/

@[simp] theorem aGet_nil {α : Type} (k : String) : aGet ([] : Obj α) k = none := rfl

@[simp] theorem keys_nil {α : Type} : keys ([] : Obj α) = [] := rfl

@[simp] theorem keys_cons {α : Type} (p : String × α) (rest : Obj α) :
    keys (p :: rest) = p.1 :: keys rest := rfl

theorem aGet_aSet {α : Type} (m : Obj α) (k k2 : String) (v : α) :
    aGet (aSet m k v) k2 = if k2 = k then some v else aGet m k2 := by
  induction m with
  | nil =>
      by_cases h : k2 = k
      · subst h; simp [aGet, aSet]
      · simp [aGet, aSet, h, Ne.symm h]
  | cons p rest ih =>
      by_cases hp : p.1 = k
      · subst hp
        by_cases h : k2 = p.1
        · subst h; simp [aGet, aSet]
        · simp [aGet, aSet, h, Ne.symm h]
      · by_cases hpk : p.1 = k2
        · subst hpk
          have hne : ¬p.1 = k := hp
          simp [aGet, aSet, hp, Ne.symm hp]
        · simp [aGet, aSet, hp, hpk, ih]

theorem aGet_aSet_self {α : Type} (m : Obj α) (k : String) (v : α) :
    aGet (aSet m k v) k = some v := by
  simp [aGet_aSet]

theorem aGet_aSet_ne {α : Type} (m : Obj α) (k k2 : String) (v : α) (h : k2 ≠ k) :
    aGet (aSet m k v) k2 = aGet m k2 := by
  simp [aGet_aSet, h]

theorem keys_aSet_of_mem {α : Type} (m : Obj α) (k : String) (v : α) (h : k ∈ keys m) :
    keys (aSet m k v) = keys m := by
  induction m with
  | nil => simp at h
  | cons p rest ih =>
      by_cases hp : p.1 = k
      · simp [aSet, hp]
      · have hr : k ∈ keys rest := by
          rcases (by simpa using h) with h1 | h1
          · exact absurd h1.symm hp
          · exact h1
        simp [aSet, hp, ih hr]

theorem keys_aSet_of_not_mem {α : Type} (m : Obj α) (k : String) (v : α) (h : k ∉ keys m) :
    keys (aSet m k v) = keys m ++ [k] := by
  induction m with
  | nil => simp [aSet]
  | cons p rest ih =>
      have hp : p.1 ≠ k := by
        intro he; exact h (by simp [he])
      have hr : k ∉ keys rest := fun hm => h (by simp [hm])
      simp [aSet, hp, ih hr]

theorem nodup_keys_aSet {α : Type} (m : Obj α) (k : String) (v : α)
    (h : (keys m).Nodup) : (keys (aSet m k v)).Nodup := by
  by_cases hm : k ∈ keys m
  · rw [keys_aSet_of_mem m k v hm]; exact h
  · rw [keys_aSet_of_not_mem m k v hm]
    exact h.append (List.nodup_singleton k) (List.disjoint_singleton.mpr hm)

theorem aSet_eq_append_of_not_mem {α : Type} (m : Obj α) (k : String) (v : α)
    (h : k ∉ keys m) : aSet m k v = m ++ [(k, v)] := by
  induction m with
  | nil => simp [aSet]
  | cons p rest ih =>
      have hp : p.1 ≠ k := by
        intro he; exact h (by simp [he])
      have hr : k ∉ keys rest := fun hm => h (by simp [hm])
      simp [aSet, hp, ih hr]

theorem aGet_isSome_iff_any {α : Type} (m : Obj α) (k : String) :
    (aGet m k).isSome = m.any (fun p => p.1 == k) := by
  induction m with
  | nil => simp
  | cons p rest ih =>
      by_cases hp : p.1 = k <;> simp [aGet, hp, ih]

theorem aGet_eq_none_of_not_mem {α : Type} (m : Obj α) (k : String)
    (h : k ∉ keys m) : aGet m k = none := by
  induction m with
  | nil => rfl
  | cons p rest ih =>
      have hp : p.1 ≠ k := by
        intro he; exact h (by simp [he])
      have hr : k ∉ keys rest := fun hm => h (by simp [hm])
      simp [aGet, hp, ih hr]

/-! ## Lemmas: counter updates and `combine` on counters -/

theorem counterUpd_get (m : Obj ℚ) (name : String) (v : ℚ) (k : String) :
    aGet (counterUpd m name v) k =
      if k = name then some ((aGet m name).getD 0 + v) else aGet m k := by
  by_cases hk : k = name
  · subst hk
    cases hm : aGet m k with
    | none => simp [counterUpd, truthyQ, hm, aGet_aSet_self, aGet_aSet]
    | some q =>
        by_cases hq : q = 0 <;>
          simp [counterUpd, truthyQ, hm, hq, aGet_aSet_self, aGet_aSet]
  · cases hm : aGet m name with
    | none => simp [counterUpd, truthyQ, hm, aGet_aSet_ne _ _ _ _ hk, hk]
    | some q =>
        by_cases hq : q = 0 <;>
          simp [counterUpd, truthyQ, hm, hq, aGet_aSet_ne _ _ _ _ hk, hk]

/-- Total contribution of one counters object to key `k`: the sum of
the values of all its bindings of `k`. -/
def keySum (ps : Obj ℚ) (k : String) : ℚ :=
  ((ps.filter (fun p => p.1 == k)).map Prod.snd).sum

theorem keySum_cons (p : String × ℚ) (rest : Obj ℚ) (k : String) :
    keySum (p :: rest) k = (if p.1 = k then p.2 else 0) + keySum rest k := by
  by_cases h : p.1 = k <;> simp [keySum, List.filter_cons, h]

theorem keySum_eq_zero (ps : Obj ℚ) (k : String)
    (h : ps.any (fun p => p.1 == k) = false) : keySum ps k = 0 := by
  induction ps with
  | nil => rfl
  | cons p rest ih =>
      simp only [List.any_cons, Bool.or_eq_false_iff] at h
      have hp : ¬p.1 = k := by simpa using h.1
      rw [keySum_cons, ih h.2, if_neg hp, add_zero]

theorem foldl_counterUpd_get (ps : Obj ℚ) (m : Obj ℚ) (k : String) :
    aGet (ps.foldl (fun m2 p => counterUpd m2 p.1 p.2) m) k =
      if ps.any (fun p => p.1 == k) then some ((aGet m k).getD 0 + keySum ps k)
      else aGet m k := by
  induction ps generalizing m with
  | nil => simp
  | cons p rest ih =>
      rw [List.foldl_cons, ih, keySum_cons]
      by_cases hp : p.1 = k
      · subst hp
        have hupd : aGet (counterUpd m p.1 p.2) p.1 = some ((aGet m p.1).getD 0 + p.2) := by
          rw [counterUpd_get]; simp
        by_cases hr : rest.any (fun q => q.1 == p.1)
        · simp [hr, hupd, add_assoc]
        · have h0 : keySum rest p.1 = 0 :=
            keySum_eq_zero rest p.1 (Bool.eq_false_iff.mpr hr)
          simp [hr, hupd, h0]
      · have hbeq : (p.1 == k) = false := by simpa using hp
        have hupd : aGet (counterUpd m p.1 p.2) k = aGet m k := by
          rw [counterUpd_get, if_neg (Ne.symm hp)]
        by_cases hr : rest.any (fun q => q.1 == k) <;>
          simp [hbeq, hr, hupd, hp]

/-- Does a snapshot define counter key `k` (key present, any value)? -/
def definesKey (s : Stats) (k : String) : Bool := s._counters.any (fun p => p.1 == k)

/-- Exact sum of the contributions of all input snapshots to key `k`. -/
def totalOf (l : List Stats) (k : String) : ℚ :=
  (l.map (fun s => keySum s._counters k)).sum

theorem totalOf_cons (s : Stats) (rest : List Stats) (k : String) :
    totalOf (s :: rest) k = keySum s._counters k + totalOf rest k := by
  simp [totalOf]

theorem totalOf_eq_zero (l : List Stats) (k : String)
    (h : l.any (fun s => definesKey s k) = false) : totalOf l k = 0 := by
  induction l with
  | nil => rfl
  | cons s rest ih =>
      simp only [List.any_cons, Bool.or_eq_false_iff] at h
      rw [totalOf_cons, ih h.2, keySum_eq_zero s._counters k h.1, add_zero]

theorem foldl_combineStep_counters (l : List Stats) (r : Stats) (k : String) :
    aGet (l.foldl combineStep r)._counters k =
      if l.any (fun s => definesKey s k)
      then some ((aGet r._counters k).getD 0 + totalOf l k)
      else aGet r._counters k := by
  induction l generalizing r with
  | nil => simp
  | cons s rest ih =>
      rw [List.foldl_cons, ih, totalOf_cons]
      have hstep : aGet (combineStep r s)._counters k =
          if definesKey s k then some ((aGet r._counters k).getD 0 + keySum s._counters k)
          else aGet r._counters k := by
        simp [combineStep, definesKey, foldl_counterUpd_get]
      by_cases hs : definesKey s k = true
      · have hupd : aGet (combineStep r s)._counters k =
            some ((aGet r._counters k).getD 0 + keySum s._counters k) := by
          rw [hstep, if_pos hs]
        by_cases hr : rest.any (fun t => definesKey t k)
        · simp [hs, hr, hupd, add_assoc]
        · have ht : totalOf rest k = 0 := totalOf_eq_zero rest k (Bool.eq_false_iff.mpr hr)
          simp [hs, hr, hupd, ht]
      · have hupd : aGet (combineStep r s)._counters k = aGet r._counters k := by
          rw [hstep, if_neg hs]
        have h0 : keySum s._counters k = 0 :=
          keySum_eq_zero s._counters k (Bool.eq_false_iff.mpr hs)
        by_cases hr : rest.any (fun t => definesKey t k)
        · simp [hs, hr, hupd, h0]
        · have ht : totalOf rest k = 0 := totalOf_eq_zero rest k (Bool.eq_false_iff.mpr hr)
          simp [hs, hr, hupd, h0, ht]

theorem combine_counters_get (l : List Stats) (k : String) :
    aGet (combine l)._counters k =
      if l.any (fun s => definesKey s k) then some (totalOf l k) else none := by
  rw [combine, foldl_combineStep_counters]
  simp [create]

/-! ## Lemmas: `combine` on distributions -/

/-- Does a snapshot hold a distribution named `n`? -/
def definesHisto (s : Stats) (n : String) : Bool := s._customStats.any (fun p => p.1 == n)

/-- Concatenated samples a `_customStats` object contributes to name `k`. -/
def histoKeySum (ps : Obj Histo) (k : String) : Histo :=
  ((ps.filter (fun p => p.1 == k)).map Prod.snd).flatten

/-- Concatenated samples of all input snapshots under name `n`. -/
def histoTotal (l : List Stats) (n : String) : Histo :=
  (l.map (fun s => histoKeySum s._customStats n)).flatten

theorem histoMergeInto_get (m : Obj Histo) (name : String) (h : Histo) (k : String) :
    aGet (histoMergeInto m name h) k =
      if k = name then some ((aGet m name).getD [] ++ h) else aGet m k := by
  by_cases hk : k = name
  · subst hk
    cases hm : aGet m k with
    | none => simp [histoMergeInto, histoAdd, emptyHisto, hm, aGet_aSet_self, aGet_aSet]
    | some q => simp [histoMergeInto, histoAdd, emptyHisto, hm, aGet_aSet_self, aGet_aSet]
  · cases hm : aGet m name with
    | none => simp [histoMergeInto, histoAdd, emptyHisto, hm, aGet_aSet_ne _ _ _ _ hk, hk]
    | some q => simp [histoMergeInto, histoAdd, emptyHisto, hm, aGet_aSet_ne _ _ _ _ hk, hk]

theorem histoKeySum_cons (p : String × Histo) (rest : Obj Histo) (k : String) :
    histoKeySum (p :: rest) k = (if p.1 = k then p.2 else []) ++ histoKeySum rest k := by
  by_cases h : p.1 = k <;> simp [histoKeySum, List.filter_cons, h]

theorem histoKeySum_eq_nil (ps : Obj Histo) (k : String)
    (h : ps.any (fun p => p.1 == k) = false) : histoKeySum ps k = [] := by
  induction ps with
  | nil => rfl
  | cons p rest ih =>
      simp only [List.any_cons, Bool.or_eq_false_iff] at h
      have hp : ¬p.1 = k := by simpa using h.1
      rw [histoKeySum_cons, ih h.2, if_neg hp]
      simp

theorem foldl_histoMergeInto_get (ps : Obj Histo) (m : Obj Histo) (k : String) :
    aGet (ps.foldl (fun m2 p => histoMergeInto m2 p.1 p.2) m) k =
      if ps.any (fun p => p.1 == k) then some ((aGet m k).getD [] ++ histoKeySum ps k)
      else aGet m k := by
  induction ps generalizing m with
  | nil => simp
  | cons p rest ih =>
      rw [List.foldl_cons, ih, histoKeySum_cons]
      by_cases hp : p.1 = k
      · subst hp
        have hupd : aGet (histoMergeInto m p.1 p.2) p.1 =
            some ((aGet m p.1).getD [] ++ p.2) := by
          rw [histoMergeInto_get]; simp
        by_cases hr : rest.any (fun q => q.1 == p.1)
        · simp [hr, hupd, List.append_assoc]
        · have h0 : histoKeySum rest p.1 = [] :=
            histoKeySum_eq_nil rest p.1 (Bool.eq_false_iff.mpr hr)
          simp [hr, hupd, h0]
      · have hbeq : (p.1 == k) = false := by simpa using hp
        have hupd : aGet (histoMergeInto m p.1 p.2) k = aGet m k := by
          rw [histoMergeInto_get, if_neg (Ne.symm hp)]
        by_cases hr : rest.any (fun q => q.1 == k) <;>
          simp [hbeq, hr, hupd, hp]

theorem histoTotal_cons (s : Stats) (rest : List Stats) (n : String) :
    histoTotal (s :: rest) n = histoKeySum s._customStats n ++ histoTotal rest n := by
  simp [histoTotal]

theorem histoTotal_eq_nil (l : List Stats) (n : String)
    (h : l.any (fun s => definesHisto s n) = false) : histoTotal l n = [] := by
  induction l with
  | nil => rfl
  | cons s rest ih =>
      simp only [List.any_cons, Bool.or_eq_false_iff] at h
      rw [histoTotal_cons, ih h.2,
        histoKeySum_eq_nil s._customStats n h.1]
      simp

theorem foldl_combineStep_histos (l : List Stats) (r : Stats) (n : String) :
    aGet (l.foldl combineStep r)._customStats n =
      if l.any (fun s => definesHisto s n)
      then some ((aGet r._customStats n).getD [] ++ histoTotal l n)
      else aGet r._customStats n := by
  induction l generalizing r with
  | nil => simp
  | cons s rest ih =>
      rw [List.foldl_cons, ih, histoTotal_cons]
      have hstep : aGet (combineStep r s)._customStats n =
          if definesHisto s n
          then some ((aGet r._customStats n).getD [] ++ histoKeySum s._customStats n)
          else aGet r._customStats n := by
        simp [combineStep, definesHisto, foldl_histoMergeInto_get]
      by_cases hs : definesHisto s n = true
      · have hupd : aGet (combineStep r s)._customStats n =
            some ((aGet r._customStats n).getD [] ++ histoKeySum s._customStats n) := by
          rw [hstep, if_pos hs]
        by_cases hr : rest.any (fun t => definesHisto t n)
        · simp [hs, hr, hupd, List.append_assoc]
        · have ht : histoTotal rest n = [] := histoTotal_eq_nil rest n (Bool.eq_false_iff.mpr hr)
          simp [hs, hr, hupd, ht]
      · have hupd : aGet (combineStep r s)._customStats n = aGet r._customStats n := by
          rw [hstep, if_neg hs]
        have h0 : histoKeySum s._customStats n = [] :=
          histoKeySum_eq_nil s._customStats n (Bool.eq_false_iff.mpr hs)
        by_cases hr : rest.any (fun t => definesHisto t n)
        · simp [hs, hr, hupd, h0]
        · have ht : histoTotal rest n = [] := histoTotal_eq_nil rest n (Bool.eq_false_iff.mpr hr)
          simp [hs, hr, hupd, h0, ht]

theorem combine_histos_get (l : List Stats) (n : String) :
    aGet (combine l)._customStats n =
      if l.any (fun s => definesHisto s n) then some (histoTotal l n) else none := by
  rw [combine, foldl_combineStep_histos]
  simp [create]

/-! ## Lemmas: permutation invariance -/

theorem perm_any {α : Type} (f : α → Bool) {l1 l2 : List α} (h : l1.Perm l2) :
    l1.any f = l2.any f := by
  induction h with
  | nil => rfl
  | cons x h ih => simp [ih]
  | swap x y l => simp [Bool.or_left_comm]
  | trans h1 h2 ih1 ih2 => exact ih1.trans ih2

theorem perm_flatten {α : Type} {l1 l2 : List (List α)} (h : l1.Perm l2) :
    l1.flatten.Perm l2.flatten := by
  induction h with
  | nil => exact List.Perm.refl _
  | cons x h ih => simpa using ih.append_left x
  | swap x y l =>
      simp only [List.flatten_cons]
      rw [← List.append_assoc, ← List.append_assoc]
      exact List.perm_append_comm.append_right _
  | trans h1 h2 ih1 ih2 => exact ih1.trans ih2

theorem hSorted_eq_of_perm {h1 h2 : Histo} (hp : h1.Perm h2) : hSorted h1 = hSorted h2 :=
  List.eq_of_perm_of_sorted
    ((List.perm_insertionSort _ h1).trans (hp.trans (List.perm_insertionSort _ h2).symm))
    (List.sorted_insertionSort _ h1) (List.sorted_insertionSort _ h2)

theorem customStatOf_eq_of_perm {h1 h2 : Histo} (hp : h1.Perm h2) :
    customStatOf h1 = customStatOf h2 := by
  have hs := hSorted_eq_of_perm hp
  simp only [customStatOf, minNonZeroValue, maxValue, getValueAtPercentile, hs]

theorem latencyOf_eq_of_perm {h1 h2 : Histo} (hp : h1.Perm h2) :
    latencyOf h1 = latencyOf h2 := by
  have hs := hSorted_eq_of_perm hp
  simp only [latencyOf, minNonZeroValue, maxValue, getValueAtPercentile, hs]

theorem histoTotal_perm (l1 l2 : List Stats) (n : String) (hp : l1.Perm l2) :
    (histoTotal l1 n).Perm (histoTotal l2 n) :=
  perm_flatten (hp.map _)

theorem totalOf_perm (l1 l2 : List Stats) (k : String) (hp : l1.Perm l2) :
    totalOf l1 k = totalOf l2 k :=
  List.Perm.sum_eq (hp.map _)

/-! ## Lemmas: counter values under `Nodup` keys -/

theorem keySum_eq_getD (m : Obj ℚ) (k : String) (hnd : (keys m).Nodup) :
    keySum m k = (aGet m k).getD 0 := by
  induction m with
  | nil => simp [keySum]
  | cons p rest ih =>
      rw [keys_cons, List.nodup_cons] at hnd
      by_cases hp : p.1 = k
      · subst hp
        have hnone : aGet rest p.1 = none := aGet_eq_none_of_not_mem rest p.1 hnd.1
        have hany : (rest.any fun q => q.1 == p.1) = false := by
          rw [← aGet_isSome_iff_any, hnone]; rfl
        rw [keySum_cons, if_pos rfl, keySum_eq_zero rest p.1 hany, add_zero]
        simp [aGet]
      · rw [keySum_cons, if_neg hp, ih hnd.2, zero_add]
        simp [aGet, hp]

/-! ## Lemmas: the distribution codec round-trips -/

theorem decodeChars_replicate (n : ℕ) (cs : List Char) (k : ℕ) :
    decodeChars (List.replicate n 'I' ++ cs) k = decodeChars cs (k + n) := by
  induction n generalizing k with
  | zero => simp
  | succ n ih =>
      rw [List.replicate_succ, List.cons_append]
      show decodeChars ('I' :: (List.replicate n 'I' ++ cs)) k = _
      rw [decodeChars, if_pos rfl, ih]
      congr 1
      omega

theorem decodeChars_encodeChars (h : Histo) :
    decodeChars (encodeChars h) 0 = some h := by
  induction h with
  | nil => rfl
  | cons n rest ih =>
      rw [encodeChars, decodeChars_replicate, decodeChars]
      have hIx : ¬(('x' : Char) = 'I') := by decide
      rw [if_neg hIx, if_pos rfl, ih]
      simp

theorem decodeHisto_encodeHisto (h : Histo) : decodeHisto (encodeHisto h) = some h := by
  rw [decodeHisto, encodeHisto]
  exact decodeChars_encodeChars h

/-! ## Lemmas: snapshots built through the generator interface -/

theorem build_invariant (ops : List BuildOp) :
    (keys (build ops)._customStats).Nodup ∧ (build ops)._encodedHistograms = none := by
  suffices hgen : ∀ s : Stats, (keys s._customStats).Nodup → s._encodedHistograms = none →
      (keys (ops.foldl applyBuild s)._customStats).Nodup ∧
        (ops.foldl applyBuild s)._encodedHistograms = none by
    exact hgen create (by simp [create]) rfl
  induction ops with
  | nil => exact fun s h1 h2 => ⟨h1, h2⟩
  | cons op rest ih =>
      intro s h1 h2
      refine ih (applyBuild s op) ?_ ?_
      · cases op with
        | counterOp name v => simpa [applyBuild, Stats.counter] using h1
        | statOp name n =>
            simp only [applyBuild, Stats.addCustomStat]
            by_cases hc : (aGet s._customStats name).isSome <;>
              simp [hc, nodup_keys_aSet, h1]
      · cases op with
        | counterOp name v => simpa [applyBuild, Stats.counter] using h2
        | statOp name n => simpa [applyBuild, Stats.addCustomStat] using h2

/-! ## Lemmas: serialization round trip -/

theorem foldl_aSet_fresh {α β : Type} (f : α → β) (m : Obj α) (start : Obj β)
    (hnd : (keys m).Nodup) (hdisj : ∀ p ∈ m, p.1 ∉ keys start) :
    m.foldl (fun acc p => aSet acc p.1 (f p.2)) start
      = start ++ m.map (fun p => (p.1, f p.2)) := by
  induction m generalizing start with
  | nil => simp
  | cons p rest ih =>
      rw [keys_cons, List.nodup_cons] at hnd
      have hdisj2 : ∀ q ∈ rest, q.1 ∉ keys (start ++ [(p.1, f p.2)]) := by
        intro q hq
        have hkeys : keys (start ++ [(p.1, f p.2)]) = keys start ++ [p.1] := by
          simp [keys]
        rw [hkeys]
        simp only [List.mem_append, List.mem_singleton]
        push_neg
        refine ⟨hdisj q (List.mem_cons_of_mem p hq), ?_⟩
        intro he
        exact hnd.1 (he ▸ (List.mem_map_of_mem Prod.fst hq))
      rw [List.foldl_cons,
        aSet_eq_append_of_not_mem start p.1 (f p.2) (hdisj p (by simp)),
        ih (start ++ [(p.1, f p.2)]) hnd.2 hdisj2]
      simp

theorem countersOfJv_map (m : Obj ℚ) :
    countersOfJv (m.map (fun p => (p.1, Jv.num p.2))) = some m := by
  induction m with
  | nil => rfl
  | cons p rest ih => simp [countersOfJv, ih]

theorem decodeObjFields_encoded (m : Obj Histo) (acc : Obj Histo) :
    decodeObjFields acc (m.map (fun p => (p.1, Jv.str (encodeHisto p.2))))
      = .ok (m.foldl (fun a p => aSet a p.1 p.2) acc) := by
  induction m generalizing acc with
  | nil => rfl
  | cons p rest ih =>
      rw [List.map_cons, List.foldl_cons, decodeObjFields]
      have hdec : decodeEntry (Jv.str (encodeHisto p.2)) = .ok p.2 := by
        rw [decodeEntry, decodeHisto_encodeHisto p.2]
      rw [hdec]
      exact ih (aSet acc p.1 p.2)

theorem foldl_aSet_self {α : Type} (m : Obj α) (hnd : (keys m).Nodup) :
    m.foldl (fun a p => aSet a p.1 p.2) [] = m := by
  have h := foldl_aSet_fresh (fun x => x) m [] hnd (by simp)
  simpa using h

theorem exceptMap_ok {ε α β : Type} (f : α → β) (a : α) :
    Except.map f (Except.ok a : Except ε α) = .ok (f a) := rfl

theorem exceptMap_error {ε α β : Type} (f : α → β) (e : ε) :
    Except.map f (Except.error e : Except ε α) = .error e := rfl

theorem deserialize_obj (fs : List (String × Jv)) :
    deserialize (Jv.obj fs) =
      match decodeAll (jvField (Jv.obj fs) "encodedHistograms") with
      | .error e => .error e
      | .ok hs => .ok ⟨jvField (Jv.obj fs) "counters", hs⟩ := rfl

theorem deserialize_serialize (S : Stats) (hnd : (keys S._customStats).Nodup)
    (henc : S._encodedHistograms = none) :
    (deserialize S.serialize.2).map DeStats.toStats = .ok (some S) := by
  obtain ⟨cnt, cst, enc⟩ := S
  subst henc
  have hpay : (Stats.mk cnt cst none).serialize.2 =
      Jv.obj [("counters", Jv.obj (cnt.map (fun p => (p.1, Jv.num p.2)))),
              ("encodedHistograms",
               Jv.obj (cst.map (fun p => (p.1, Jv.str (encodeHisto p.2)))))] := by
    simp only [Stats.serialize]
    rw [foldl_aSet_fresh encodeHisto cst [] hnd (by simp)]
    simp [List.map_map, Function.comp]
  rw [hpay]
  have hfield : jvField
      (Jv.obj [("counters", Jv.obj (cnt.map (fun p => (p.1, Jv.num p.2)))),
               ("encodedHistograms",
                Jv.obj (cst.map (fun p => (p.1, Jv.str (encodeHisto p.2)))))])
      "encodedHistograms"
      = some (Jv.obj (cst.map (fun p => (p.1, Jv.str (encodeHisto p.2))))) := by
    simp [jvField, aGet]
  have hfield2 : jvField
      (Jv.obj [("counters", Jv.obj (cnt.map (fun p => (p.1, Jv.num p.2)))),
               ("encodedHistograms",
                Jv.obj (cst.map (fun p => (p.1, Jv.str (encodeHisto p.2)))))])
      "counters"
      = some (Jv.obj (cnt.map (fun p => (p.1, Jv.num p.2)))) := by
    simp [jvField, aGet]
  have hdec : decodeAll (some (Jv.obj (cst.map (fun p => (p.1, Jv.str (encodeHisto p.2))))))
      = .ok cst := by
    rw [decodeAll, decodeObjFields_encoded, foldl_aSet_self cst hnd]
  rw [deserialize_obj, hfield, hdec, hfield2, exceptMap_ok]
  simp [DeStats.toStats, countersOfJv_map]

/-- C1: for every snapshot built by `counter` / `addCustomStat` calls,
deserializing the serialized payload reconstructs the snapshot exactly
(hence `report` of the round-tripped snapshot equals `report` of the
original field-for-field, timestamp aside: counters identical, and all
distribution statistics answered from identical sample state). -/
theorem c1_roundtrip_report (ops : List BuildOp) :
    ((deserialize (build ops).serialize.2).map DeStats.toStats = .ok (some (build ops))) ∧
    ((deserialize (build ops).serialize.2).map (fun d => d.toStats.map Stats.report)
      = .ok (some ((build ops).report))) := by
  obtain ⟨hnd, henc⟩ := build_invariant ops
  have h := deserialize_serialize (build ops) hnd henc
  refine ⟨h, ?_⟩
  cases hd : deserialize (build ops).serialize.2 with
  | error e =>
      rw [hd, exceptMap_error] at h
      exact absurd h (by simp)
  | ok d =>
      rw [hd, exceptMap_ok] at h
      have hts : DeStats.toStats d = some (build ops) := by simpa using h
      rw [exceptMap_ok]
      simp [hts]

/-- C2: `combine` sums every counter key exactly over the inputs that
define it, with absent keys contributing 0, and yields no binding for a
key no input defines (so a key defined only in one input keeps that
input's value). -/
theorem c2_combine_counter_sums (l : List Stats) (k : String)
    (hnd : ∀ s ∈ l, (keys s._counters).Nodup) :
    aGet (combine l)._counters k =
      if l.any (fun s => (aGet s._counters k).isSome)
      then some ((l.map (fun s => (aGet s._counters k).getD 0)).sum)
      else none := by
  rw [combine_counters_get]
  have hpt : ∀ s : Stats, definesKey s k = (aGet s._counters k).isSome :=
    fun s => (aGet_isSome_iff_any s._counters k).symm
  have htot : totalOf l k = (l.map (fun s => (aGet s._counters k).getD 0)).sum :=
    congrArg List.sum (List.map_congr_left (fun s hs => keySum_eq_getD s._counters k (hnd s hs)))
  simp only [hpt, htot]

/-- Witness for C2 at the claim's example: `A` has `x=3` (and `y=7`),
`B` has `x=5`; the combination yields `x=8`, and `y` keeps `A`'s value. -/
def snapA : Stats := ⟨[("x", 3), ("y", 7)], [], none⟩

/-- Witness snapshot `B` for C2. -/
def snapB : Stats := ⟨[("x", 5)], [], none⟩

theorem c2_combine_counter_sums_witness :
    aGet (combine [snapA, snapB])._counters "x" = some 8 ∧
    aGet (combine [snapA, snapB])._counters "y" = some 7 := by
  have hx := c2_combine_counter_sums [snapA, snapB] "x" (by decide)
  have hy := c2_combine_counter_sums [snapA, snapB] "y" (by decide)
  rw [hx, hy]
  have hxy : ¬("x" = "y") := by decide
  norm_num [snapA, snapB, aGet, hxy]

/-- C3: `combine` is order-insensitive — for permuted input lists the
results have equal counter values and equal distribution statistics
(min, max, median and the reported percentiles). -/
theorem c3_combine_permutation_invariant (l1 l2 : List Stats) (hp : l1.Perm l2) :
    (∀ k, aGet (combine l1)._counters k = aGet (combine l2)._counters k) ∧
    (∀ n, (aGet (combine l1)._customStats n).map customStatOf
        = (aGet (combine l2)._customStats n).map customStatOf) ∧
    (∀ n, (aGet (combine l1)._customStats n).map latencyOf
        = (aGet (combine l2)._customStats n).map latencyOf) := by
  refine ⟨fun k => ?_, fun n => ?_, fun n => ?_⟩
  · rw [combine_counters_get, combine_counters_get, perm_any _ hp, totalOf_perm l1 l2 k hp]
  · rw [combine_histos_get, combine_histos_get, perm_any _ hp]
    by_cases hc : l2.any (fun s => definesHisto s n)
    · simp [hc, customStatOf_eq_of_perm (histoTotal_perm l1 l2 n hp)]
    · simp [hc]
  · rw [combine_histos_get, combine_histos_get, perm_any _ hp]
    by_cases hc : l2.any (fun s => definesHisto s n)
    · simp [hc, latencyOf_eq_of_perm (histoTotal_perm l1 l2 n hp)]
    · simp [hc]

/-- Witness snapshot with a distribution, for C3. -/
def snapD : Stats := ⟨[("x", 5)], [("t", [9])], none⟩

/-- Second witness snapshot with a distribution, for C3. -/
def snapE : Stats := ⟨[("y", 2)], [("t", [2, 4])], none⟩

theorem c3_combine_permutation_invariant_witness :
    aGet (combine [snapD, snapE])._counters "x"
      = aGet (combine [snapE, snapD])._counters "x" ∧
    (aGet (combine [snapD, snapE])._customStats "t").map customStatOf
      = (aGet (combine [snapE, snapD])._customStats "t").map customStatOf := by
  have h := c3_combine_permutation_invariant [snapD, snapE] [snapE, snapD]
    (List.Perm.swap snapE snapD [])
  exact ⟨h.1 "x", h.2.1 "t"⟩

/-! ## C4: reset followed by report -/

/-- Counterexample to C4 as stated: on a snapshot that could be
reported before `reset()`, `reset()` followed by `report()` does not
succeed — it fails with the missing-distribution error, because the
reset snapshot no longer holds the required
`engine.http.response_time` distribution. -/
theorem c4_counterexample :
    (Stats.mk [("x", 3)] [("engine.http.response_time", [5])] none).reset.report
      = .error .missingResponseTime := rfl

/-- C4 (amended): `reset()` empties the counters and the custom stats
of every snapshot, and `report()` on the reset snapshot raises the
missing-required-distribution error instead of succeeding. -/
theorem c4_reset_empties_and_report_fails (S : Stats) :
    (S.reset)._counters = [] ∧ (S.reset)._customStats = [] ∧
      S.reset.report = .error .missingResponseTime :=
  ⟨rfl, rfl, rfl⟩

/-! ## C5: the rps block -/

/-- C5: `rps.count` equals the `engine.http.responses_received`
counter, but `rps.mean` divides that count by the hardcoded constant
10 — `report()` takes no reporting-interval parameter at all (the
source marks the constant with a FIXME). -/
theorem c5_rps_hardcoded_divisor (S : Stats) (r : Report) (h : S.report = .ok r) :
    r.rps.count = aGet S._counters "engine.http.responses_received" ∧
    r.rps.mean = (aGet S._counters "engine.http.responses_received").map (fun q => q / 10) := by
  unfold Stats.report at h
  cases hg : aGet S._customStats "engine.http.response_time" with
  | none => rw [hg] at h; exact absurd h (by simp)
  | some ns =>
      rw [hg] at h
      injection h with h2
      subst h2
      exact ⟨rfl, rfl⟩

/-- Witness snapshot for C5: 20 responses received. -/
def snapRps : Stats :=
  ⟨[("engine.http.responses_received", 20)], [("engine.http.response_time", [5])], none⟩

theorem c5_rps_hardcoded_divisor_witness :
    ∃ r : Report, snapRps.report = .ok r ∧ r.rps.count = some 20 ∧ r.rps.mean = some 2 := by
  obtain ⟨r, hr⟩ : ∃ r, snapRps.report = .ok r := ⟨_, rfl⟩
  have h := c5_rps_hardcoded_divisor snapRps r hr
  refine ⟨r, hr, ?_, ?_⟩
  · rw [h.1]; decide
  · rw [h.2]
    have hv : aGet snapRps._counters "engine.http.responses_received" = some 20 := by decide
    rw [hv]
    norm_num

/-! ## C6: the rounding rule -/

/-- Rounding rule asserted by the claim (and §4.5 of the spec):
multiply by `10^d`, round to the nearest integer with ties away from
zero, divide back by `10^d`. -/
def nearestTiesAway (q : ℚ) : ℤ :=
  if q - ⌊q⌋ < 1/2 then ⌊q⌋
  else if 1/2 < q - ⌊q⌋ then ⌈q⌉
  else if 0 ≤ q then ⌈q⌉ else ⌊q⌋

/-- Claim-side rounding function built from `nearestTiesAway`. -/
def roundTiesAway (x : ℚ) (d : ℕ) : ℚ := (nearestTiesAway (x * 10 ^ d) : ℤ) / 10 ^ d

theorem floorEq (q : ℚ) (n : ℤ) (h1 : (n : ℚ) ≤ q) (h2 : q < n + 1) : ⌊q⌋ = n :=
  Int.floor_eq_iff.mpr ⟨h1, h2⟩

/-- Counterexample to C6 as stated: at `x = -1.25`, `d = 1` the source
rounds the tie upward (toward +∞), yielding `-1.2`, while the claimed
ties-away-from-zero rule yields `-1.3`. -/
theorem c6_counterexample :
    round (-5/4) 1 = -6/5 ∧ roundTiesAway (-5/4) 1 = -13/10 ∧ ((-6/5 : ℚ) ≠ -13/10) := by
  have hf : ⌊((-5 : ℚ)/4 * 10 ^ 1 + 1/2)⌋ = -12 := floorEq _ (-12) (by norm_num) (by norm_num)
  have hq : ⌊((-5 : ℚ)/4 * 10 ^ 1)⌋ = -13 := floorEq _ (-13) (by norm_num) (by norm_num)
  refine ⟨?_, ?_, by norm_num⟩
  · rw [round, jsMathRound, hf]; norm_num
  · rw [roundTiesAway, nearestTiesAway, hq]
    norm_num

theorem jsMathRound_eq_tiesAway_of_nonneg (q : ℚ) (hq : 0 ≤ q) :
    jsMathRound q = nearestTiesAway q := by
  have hfl : (⌊q⌋ : ℚ) ≤ q := Int.floor_le q
  have hfu : q - 1 < ⌊q⌋ := Int.sub_one_lt_floor q
  unfold jsMathRound nearestTiesAway
  by_cases h1 : q - ⌊q⌋ < 1/2
  · rw [if_pos h1]
    exact floorEq _ _ (by push_cast; linarith) (by push_cast; linarith)
  · rw [if_neg h1]
    have hge : 1/2 ≤ q - ⌊q⌋ := le_of_not_lt h1
    have h2 : ⌊q + 1/2⌋ = ⌊q⌋ + 1 :=
      floorEq _ _ (by push_cast; linarith) (by push_cast; linarith)
    have hceil : ⌈q⌉ = ⌊q⌋ + 1 :=
      Int.ceil_eq_iff.mpr ⟨by push_cast; linarith, by push_cast; linarith⟩
    by_cases h3 : 1/2 < q - ⌊q⌋
    · rw [if_pos h3, hceil, h2]
    · rw [if_neg h3, if_pos hq, hceil, h2]

/-- C6 (amended): the source rounds half toward positive infinity
(`Math.round`); this agrees with the claimed ties-away-from-zero rule
for all non-negative inputs (so `round(1.2345,1) = 1.2` and
`round(1.25,1) = 1.3` hold), but at negative ties the result rounds
toward zero: `round(-1.25,1) = -1.2`. -/
theorem c6_round_half_up :
    (∀ (x : ℚ) (d : ℕ), 0 ≤ x → round x d = roundTiesAway x d) ∧
    round (2469/2000) 1 = 6/5 ∧ round (5/4) 1 = 13/10 ∧ round (-5/4) 1 = -6/5 := by
  refine ⟨fun x d hx => ?_, ?_, ?_, ?_⟩
  · rw [round, roundTiesAway, jsMathRound_eq_tiesAway_of_nonneg (x * 10 ^ d) (by positivity)]
  · have hf : ⌊((2469 : ℚ)/2000 * 10 ^ 1 + 1/2)⌋ = 12 := floorEq _ 12 (by norm_num) (by norm_num)
    rw [round, jsMathRound, hf]; norm_num
  · have hf : ⌊((5 : ℚ)/4 * 10 ^ 1 + 1/2)⌋ = 13 := floorEq _ 13 (by norm_num) (by norm_num)
    rw [round, jsMathRound, hf]; norm_num
  · have hf : ⌊((-5 : ℚ)/4 * 10 ^ 1 + 1/2)⌋ = -12 := floorEq _ (-12) (by norm_num) (by norm_num)
    rw [round, jsMathRound, hf]; norm_num

theorem c6_round_half_up_witness :
    ((0 : ℚ) ≤ 5/4) ∧ round (5/4) 1 = roundTiesAway (5/4) 1 :=
  ⟨by norm_num, c6_round_half_up.1 (5/4) 1 (by norm_num)⟩

/-! ## C7: namespace parsing in the report -/

theorem report_ok_fields (S : Stats) (r : Report) (h : S.report = .ok r) :
    r.scenarioCounts = scenarioCountsOf S._counters ∧
    r.errors = errorsOf S._counters ∧
    r.codes = codesOf S._counters ∧
    r.counters = S._counters := by
  unfold Stats.report at h
  cases hg : aGet S._customStats "engine.http.response_time" with
  | none => rw [hg] at h; exact absurd h (by simp)
  | some ns =>
      rw [hg] at h
      injection h with h2
      subst h2
      exact ⟨rfl, rfl, rfl, rfl⟩

theorem fold_project_isSome (cond : String → Bool) (der : String → String)
    (m : Obj ℚ) (k : String) :
    ∀ acc : Obj ℚ,
      (aGet (List.foldl (fun acc p => if cond p.1 then aSet acc (der p.1) p.2 else acc) acc m)
          k).isSome
        = ((aGet acc k).isSome || m.any (fun p => cond p.1 && (der p.1 == k))) := by
  induction m with
  | nil => intro acc; simp
  | cons p rest ih =>
      intro acc
      rw [List.foldl_cons]
      by_cases hc : cond p.1
      · rw [if_pos hc, ih]
        by_cases hk : der p.1 = k
        · subst hk
          simp [aGet_aSet_self, hc]
        · rw [aGet_aSet_ne acc (der p.1) k p.2 (Ne.symm hk)]
          have hb : (der p.1 == k) = false := by simpa using hk
          simp [hc, hb]
      · rw [if_neg hc, ih]
        simp [hc]

theorem aGet_isSome_projectCounters (cond : String → Bool) (der : String → String)
    (m : Obj ℚ) (k : String) :
    (aGet (projectCounters cond der m) k).isSome
      = m.any (fun p => cond p.1 && (der p.1 == k)) := by
  rw [projectCounters, fold_project_isSome cond der m k []]
  simp

/-- Snapshot for C7's counterexample: the counter key
`engine.http.response_codex` does not have the form
`engine.http.response_code.<code>`, yet the `codes` block picks it up
(the source checks `startsWith` without the trailing dot and then
coerces the `undefined` split result to the object key `"undefined"`). -/
def snapCodes : Stats :=
  ⟨[("engine.http.response_codex", 5)], [("engine.http.response_time", [5])], none⟩

/-- Counterexample to C7 as stated: no counter key of `snapCodes` has
the form `engine.http.response_code.<code>` (dot included), yet
`report()` produces a non-empty `codes` block, namely
`{undefined: 5}`. -/
theorem c7_counterexample :
    (snapCodes.report).map (fun r => r.codes) = .ok [("undefined", 5)] ∧
    snapCodes._counters.all
      (fun p => !(strStarts p.1 "engine.http.response_code.")) = true := by
  constructor
  · rfl
  · rfl

/-- Snapshot of the claim's worked example. -/
def snapScn : Stats :=
  ⟨[("scenarios.created", 10), ("scenarios.created.login", 4),
    ("scenarios.created.checkout", 6)],
   [("engine.http.response_time", [5])], none⟩

/-- C7 (amended): `scenarioCounts`, `errors` and `codes` contain
exactly the keys derived by the source's JS split rule — an entry under
`k` exists iff some counter key passes the block's prefix test
(`startsWith`, without a trailing dot in the `codes` case) and derives
`k` as the segment between the first and second occurrences of the
separator (`"undefined"` when, as for dot-less `codes` keys, the
separator does not occur).  On the claim's example the parsing is the
expected one: `scenariosCreated = 10`,
`scenarioCounts = {login: 4, checkout: 6}`. -/
theorem c7_namespace_parsing_amended :
    (∀ (S : Stats) (r : Report), S.report = .ok r →
      (∀ k, (aGet r.scenarioCounts k).isSome
          = S._counters.any (fun p => strStarts p.1 "scenarios.created."
              && (derivedKey "scenarios.created." p.1 == k))) ∧
      (∀ k, (aGet r.errors k).isSome
          = S._counters.any (fun p => strStarts p.1 "errors."
              && (derivedKey "errors." p.1 == k))) ∧
      (∀ k, (aGet r.codes k).isSome
          = S._counters.any (fun p => strStarts p.1 "engine.http.response_code"
              && (derivedKey "response_code." p.1 == k)))) ∧
    ((snapScn.report).map (fun r => (r.scenariosCreated, r.scenarioCounts)) =
      .ok (some 10, [("login", 4), ("checkout", 6)])) := by
  constructor
  · intro S r h
    obtain ⟨hsc, herr, hcodes, _⟩ := report_ok_fields S r h
    refine ⟨fun k => ?_, fun k => ?_, fun k => ?_⟩
    · rw [hsc, scenarioCountsOf, aGet_isSome_projectCounters]
    · rw [herr, errorsOf, aGet_isSome_projectCounters]
    · rw [hcodes, codesOf, aGet_isSome_projectCounters]
  · rfl

theorem c7_namespace_parsing_amended_witness :
    ∃ r : Report, snapScn.report = .ok r ∧ (aGet r.scenarioCounts "login").isSome = true := by
  obtain ⟨r, hr⟩ : ∃ r, snapScn.report = .ok r := ⟨_, rfl⟩
  refine ⟨r, hr, ?_⟩
  rw [(c7_namespace_parsing_amended.1 snapScn r hr).1 "login"]
  decide

/-! ## C8: failure behaviour of `deserialize` -/

/-- Did an `Except` computation succeed? -/
def isOkE {ε α : Type} : Except ε α → Bool
  | .ok _ => true
  | .error _ => false

/-- Is one iterated encoded-histogram entry undecodable (the decoder
throws on every non-string entry and on strings that are not valid
encodings)? -/
def badEntry (v : Jv) : Bool :=
  match v with
  | .str s => (decodeHisto s).isNone
  | _ => true

/-- Does the `encodedHistograms` member contain an entry that fails to
decode, under lodash's iteration of the member (fields of an object,
elements of an array, characters of a string; any other value is an
empty collection)? -/
def badEncodings : Option Jv → Bool
  | none => false
  | some (.obj fs) => fs.any (fun p => badEntry p.2)
  | some (.arr es) => es.any badEntry
  | some (.str s) => s.data.any (fun c => badEntry (.str (String.mk [c])))
  | some (.num _) => false
  | some (.boolean _) => false
  | some .null => false

theorem isOkE_decodeEntry (v : Jv) : isOkE (decodeEntry v) = !badEntry v := by
  cases v with
  | str s => cases hd : decodeHisto s <;> simp [decodeEntry, badEntry, hd, isOkE]
  | num q => rfl
  | boolean b => rfl
  | null => rfl
  | obj fs => rfl
  | arr es => rfl

theorem badEntry_of_error (v : Jv) (e : DeserializeError) (h : decodeEntry v = .error e) :
    badEntry v = true := by
  have hx := isOkE_decodeEntry v
  rw [h] at hx
  cases hb : badEntry v
  · rw [hb] at hx; exact absurd hx (by simp [isOkE])
  · rfl

theorem badEntry_of_ok (v : Jv) (h2 : Histo) (h : decodeEntry v = .ok h2) :
    badEntry v = false := by
  have hx := isOkE_decodeEntry v
  rw [h] at hx
  cases hb : badEntry v
  · rfl
  · rw [hb] at hx; exact absurd hx (by simp [isOkE])

theorem decodeObjFields_isOk (fs : List (String × Jv)) :
    ∀ acc : Obj Histo,
      isOkE (decodeObjFields acc fs) = !fs.any (fun p => badEntry p.2) := by
  induction fs with
  | nil => intro acc; rfl
  | cons p rest ih =>
      intro acc
      rw [decodeObjFields]
      cases hd : decodeEntry p.2 with
      | error e => simp [isOkE, badEntry_of_error p.2 e hd]
      | ok h => simp [ih, badEntry_of_ok p.2 h hd]

theorem decodeArrElems_isOk (es : List Jv) :
    ∀ (acc : Obj Histo) (i : ℕ),
      isOkE (decodeArrElems acc i es) = !es.any badEntry := by
  induction es with
  | nil => intro acc i; rfl
  | cons v rest ih =>
      intro acc i
      rw [decodeArrElems]
      cases hd : decodeEntry v with
      | error e => simp [isOkE, badEntry_of_error v e hd]
      | ok h => simp [ih, badEntry_of_ok v h hd]

theorem decodeStrChars_isOk (cs : List Char) :
    ∀ (acc : Obj Histo) (i : ℕ),
      isOkE (decodeStrChars acc i cs)
        = !cs.any (fun c => badEntry (.str (String.mk [c]))) := by
  induction cs with
  | nil => intro acc i; rfl
  | cons c rest ih =>
      intro acc i
      rw [decodeStrChars]
      cases hd : decodeEntry (.str (String.mk [c])) with
      | error e => simp [isOkE, badEntry_of_error _ e hd]
      | ok h => simp [ih, badEntry_of_ok _ h hd]

theorem isOkE_decodeAll (o : Option Jv) : isOkE (decodeAll o) = !badEncodings o := by
  cases o with
  | none => rfl
  | some v =>
      cases v with
      | obj fs => simpa [decodeAll, badEncodings] using decodeObjFields_isOk fs []
      | arr es => simpa [decodeAll, badEncodings] using decodeArrElems_isOk es [] 0
      | str s => simpa [decodeAll, badEncodings] using decodeStrChars_isOk s.data [] 0
      | num q => rfl
      | boolean b => rfl
      | null => rfl

/-- Payload structure asserted by the spec (§6): an object holding a
`counters` member mapping strings to numbers and an `encodedHistograms`
member mapping strings to opaque strings. -/
def expectedShape (p : Jv) : Bool :=
  match p with
  | .obj fs =>
      (match aGet fs "counters" with
       | some (.obj cs) => cs.all (fun q => match q.2 with | .num _ => true | _ => false)
       | _ => false)
      && (match aGet fs "encodedHistograms" with
          | some (.obj es) => es.all (fun q => match q.2 with | .str _ => true | _ => false)
          | _ => false)
  | _ => false

/-- Payload that parses as structured text but does not have the
expected shape: the `encodedHistograms` member is absent. -/
def payloadNoHistos : Jv := Jv.obj [("counters", Jv.obj [("a", Jv.num 1)])]

/-- Counterexample to C8 as stated: `payloadNoHistos` is not parseable
as the expected structure (no `encodedHistograms` member), yet
`deserialize` succeeds on it instead of raising. -/
theorem c8_counterexample :
    isOkE (deserialize payloadNoHistos) = true ∧ expectedShape payloadNoHistos = false :=
  ⟨rfl, rfl⟩

/-- C8 (amended): `serialize` is a total function of the snapshot, and
`deserialize` (from the parsed payload on; text-level JSON parse
failures belong to the external parser) raises iff the payload is
`null` (the property access throws) or some entry iterated from its
`encodedHistograms` member fails to decode.  A payload that merely
lacks the expected structure — missing or mistyped `counters` /
`encodedHistograms` members — does not raise. -/
theorem c8_deserialize_error_iff (p : Jv) :
    isOkE (deserialize p) = false ↔
      (p = Jv.null ∨ badEncodings (jvField p "encodedHistograms") = true) := by
  cases p with
  | null => simp [deserialize, isOkE]
  | obj fs =>
      have h1 : isOkE (deserialize (Jv.obj fs))
          = isOkE (decodeAll (jvField (Jv.obj fs) "encodedHistograms")) := by
        rw [deserialize_obj]
        cases hdec : decodeAll (jvField (Jv.obj fs) "encodedHistograms") <;> simp [isOkE]
      rw [h1, isOkE_decodeAll]
      simp
  | num q => simp [show isOkE (deserialize (Jv.num q)) = true from rfl, jvField, badEncodings]
  | str s => simp [show isOkE (deserialize (Jv.str s)) = true from rfl, jvField, badEncodings]
  | boolean b =>
      simp [show isOkE (deserialize (Jv.boolean b)) = true from rfl, jvField, badEncodings]
  | arr es => simp [show isOkE (deserialize (Jv.arr es)) = true from rfl, jvField, badEncodings]

/-! ## C10: `serialize` does not disturb the observable snapshot -/

/-- C10: `serialize` installs the encoded-histogram cache in the
`_encodedHistograms` field of the object but leaves `_counters` and
`_customStats` unchanged, so `report()` is identical before and after. -/
theorem c10_serialize_leaves_report (S : Stats) :
    (S.serialize.1)._counters = S._counters ∧
    (S.serialize.1)._customStats = S._customStats ∧
    (S.serialize.1)._encodedHistograms.isSome = true ∧
    S.serialize.1.report = S.report := by
  refine ⟨rfl, rfl, rfl, ?_⟩
  obtain ⟨c, cs, e⟩ := S
  rfl

/-! ## C9: heap lemmas for `clone()` -/

theorem getD_append_lt {α : Type} (l1 l2 : List α) (i : ℕ) (d : α) (h : i < l1.length) :
    (l1 ++ l2).getD i d = l1.getD i d := by
  rw [List.getD_eq_getElem?_getD, List.getD_eq_getElem?_getD, List.getElem?_append_left h]

theorem getD_append_len {α : Type} (l1 l2 : List α) (d : α) :
    (l1 ++ l2).getD l1.length d = l2.getD 0 d := by
  rw [List.getD_eq_getElem?_getD, List.getD_eq_getElem?_getD,
    List.getElem?_append_right (le_refl l1.length)]
  simp

theorem getD_set_ne {α : Type} (l : List α) (i j : ℕ) (v d : α) (h : i ≠ j) :
    (l.set i v).getD j d = l.getD j d := by
  rw [List.getD_eq_getElem?_getD, List.getD_eq_getElem?_getD, List.getElem?_set_ne h]

theorem mem_of_aGet {α : Type} (m : Obj α) (k : String) (v : α) (h : aGet m k = some v) :
    (k, v) ∈ m := by
  induction m with
  | nil => exact absurd h (by simp)
  | cons p rest ih =>
      rw [aGet] at h
      by_cases hp : p.1 = k
      · rw [if_pos hp] at h
        have hv2 : p.2 = v := by injection h
        have : p = (k, v) := by
          obtain ⟨a, b⟩ := p
          simp only at hp hv2
          rw [hp, hv2]
        rw [← this]
        exact List.mem_cons_self p rest
      · rw [if_neg hp] at h
        exact List.mem_cons_of_mem p (ih h)

theorem allocCopies_cons_fst (hs : List Histo) (p : String × ℕ) (rest : Obj ℕ) :
    (allocCopies hs (p :: rest)).1
      = (p.1, hs.length) :: (allocCopies (hs ++ [hs.getD p.2 []]) rest).1 := rfl

theorem allocCopies_cons_snd (hs : List Histo) (p : String × ℕ) (rest : Obj ℕ) :
    (allocCopies hs (p :: rest)).2
      = (allocCopies (hs ++ [hs.getD p.2 []]) rest).2 := rfl

theorem allocCopies_snd_extends (cs : Obj ℕ) :
    ∀ hs : List Histo, ∃ ext, (allocCopies hs cs).2 = hs ++ ext := by
  induction cs with
  | nil => exact fun hs => ⟨[], by simp [allocCopies]⟩
  | cons p rest ih =>
      intro hs
      obtain ⟨ext, hext⟩ := ih (hs ++ [hs.getD p.2 []])
      refine ⟨hs.getD p.2 [] :: ext, ?_⟩
      rw [allocCopies_cons_snd, hext, List.append_assoc]
      rfl

theorem allocCopies_snd_len (cs : Obj ℕ) :
    ∀ hs : List Histo, (allocCopies hs cs).2.length = hs.length + cs.length := by
  induction cs with
  | nil => intro hs; simp [allocCopies]
  | cons p rest ih =>
      intro hs
      rw [allocCopies_cons_snd, ih (hs ++ [hs.getD p.2 []])]
      simp only [List.length_append, List.length_singleton, List.length_cons, List.length_nil]
      omega

theorem allocCopies_read (cs : Obj ℕ) :
    ∀ hs : List Histo, (∀ p ∈ cs, p.2 < hs.length) →
      ((allocCopies hs cs).1).map (fun q => (q.1, (allocCopies hs cs).2.getD q.2 []))
        = cs.map (fun p => (p.1, hs.getD p.2 [])) := by
  induction cs with
  | nil => intro hs hv; rfl
  | cons p rest ih =>
      intro hs hv
      have hv2 : ∀ q ∈ rest, q.2 < (hs ++ [hs.getD p.2 []]).length := by
        intro q hq
        have := hv q (List.mem_cons_of_mem p hq)
        simp only [List.length_append, List.length_singleton]
        omega
      obtain ⟨ext, hext⟩ := allocCopies_snd_extends rest (hs ++ [hs.getD p.2 []])
      rw [allocCopies_cons_fst, allocCopies_cons_snd]
      simp only [List.map_cons, List.cons.injEq]
      refine ⟨?_, ?_⟩
      · rw [hext, List.append_assoc, getD_append_len]
        rfl
      · rw [ih (hs ++ [hs.getD p.2 []]) hv2]
        refine List.map_congr_left (fun q hq => ?_)
        rw [getD_append_lt]
        exact hv q (List.mem_cons_of_mem p hq)

theorem allocCopies_fst_bounds (cs : Obj ℕ) :
    ∀ hs : List Histo, ∀ q ∈ (allocCopies hs cs).1,
      hs.length ≤ q.2 ∧ q.2 < (allocCopies hs cs).2.length := by
  induction cs with
  | nil => intro hs q hq; exact absurd hq (by simp [allocCopies])
  | cons p rest ih =>
      intro hs q hq
      rw [allocCopies_cons_fst] at hq
      rw [allocCopies_cons_snd]
      have hlen := allocCopies_snd_len rest (hs ++ [hs.getD p.2 []])
      have hlen2 : (hs ++ [hs.getD p.2 []]).length = hs.length + 1 := by simp
      rcases List.mem_cons.mp hq with hq | hq
      · subst hq
        exact ⟨le_refl _, by omega⟩
      · obtain ⟨hb1, hb2⟩ := ih (hs ++ [hs.getD p.2 []]) q hq
        exact ⟨by omega, hb2⟩

theorem cloneStats_fst (h : Heap) (s : StatsRef) :
    (h.cloneStats s).1 = ⟨h.counterObjs.length, h.cstatObjs.length⟩ := rfl

theorem cloneStats_counterObjs (h : Heap) (s : StatsRef) :
    (h.cloneStats s).2.counterObjs = h.counterObjs ++ [h.readCounters s] := rfl

theorem cloneStats_cstatObjs (h : Heap) (s : StatsRef) :
    (h.cloneStats s).2.cstatObjs
      = h.cstatObjs ++ [(allocCopies h.histoObjs (h.readCstat s)).1] := rfl

theorem cloneStats_histoObjs (h : Heap) (s : StatsRef) :
    (h.cloneStats s).2.histoObjs = (allocCopies h.histoObjs (h.readCstat s)).2 := rfl

theorem clone_readCounters_orig (h : Heap) (s : StatsRef) (hv : ValidRef h s) :
    (h.cloneStats s).2.readCounters s = h.readCounters s := by
  unfold Heap.readCounters
  rw [cloneStats_counterObjs, getD_append_lt _ _ _ _ hv.1]

theorem clone_readCstat_orig (h : Heap) (s : StatsRef) (hv : ValidRef h s) :
    (h.cloneStats s).2.readCstat s = h.readCstat s := by
  unfold Heap.readCstat
  rw [cloneStats_cstatObjs, getD_append_lt _ _ _ _ hv.2.1]

theorem clone_readHistos_orig (h : Heap) (s : StatsRef) (hv : ValidRef h s) :
    (h.cloneStats s).2.readHistos s = h.readHistos s := by
  unfold Heap.readHistos
  rw [clone_readCstat_orig h s hv]
  refine List.map_congr_left (fun p hp => ?_)
  obtain ⟨ext, hext⟩ := allocCopies_snd_extends (h.readCstat s) h.histoObjs
  rw [cloneStats_histoObjs, hext, getD_append_lt _ _ _ _ (hv.2.2 p hp)]

theorem clone_readCounters_clone (h : Heap) (s : StatsRef) :
    (h.cloneStats s).2.readCounters (h.cloneStats s).1 = h.readCounters s := by
  unfold Heap.readCounters
  rw [cloneStats_counterObjs]
  show (h.counterObjs ++ [h.readCounters s]).getD h.counterObjs.length [] = h.readCounters s
  rw [getD_append_len]
  rfl

theorem clone_readCstat_clone (h : Heap) (s : StatsRef) :
    (h.cloneStats s).2.readCstat (h.cloneStats s).1
      = (allocCopies h.histoObjs (h.readCstat s)).1 := by
  unfold Heap.readCstat
  rw [cloneStats_cstatObjs]
  show (h.cstatObjs ++ [(allocCopies h.histoObjs (h.readCstat s)).1]).getD
      h.cstatObjs.length [] = _
  rw [getD_append_len]
  rfl

theorem clone_readHistos_clone (h : Heap) (s : StatsRef) (hv : ValidRef h s) :
    (h.cloneStats s).2.readHistos (h.cloneStats s).1 = h.readHistos s := by
  unfold Heap.readHistos
  rw [clone_readCstat_clone, cloneStats_histoObjs]
  exact allocCopies_read (h.readCstat s) h.histoObjs hv.2.2

theorem view_eq_of_reads (h1 h2 : Heap) (s : StatsRef)
    (hc : h1.readCounters s = h2.readCounters s)
    (hcs : h1.readCstat s = h2.readCstat s)
    (hh : ∀ p ∈ h2.readCstat s, h1.histoObjs.getD p.2 [] = h2.histoObjs.getD p.2 []) :
    h1.viewStats s = h2.viewStats s := by
  unfold Heap.viewStats Heap.readHistos
  rw [hc, hcs]
  simp only [Stats.mk.injEq, and_true, true_and]
  exact List.map_congr_left (fun p hp => by rw [hh p hp])

theorem clone_view_orig (h : Heap) (s : StatsRef) (hv : ValidRef h s) :
    (h.cloneStats s).2.viewStats s = h.viewStats s := by
  unfold Heap.viewStats
  rw [clone_readCounters_orig h s hv, clone_readHistos_orig h s hv]

theorem clone_view_clone (h : Heap) (s : StatsRef) (hv : ValidRef h s) :
    (h.cloneStats s).2.viewStats (h.cloneStats s).1 = h.viewStats s := by
  unfold Heap.viewStats
  rw [clone_readCounters_clone, clone_readHistos_clone h s hv]

theorem mut_clone_frames_orig (h : Heap) (s : StatsRef) (hv : ValidRef h s) (op : MutOp) :
    ((h.cloneStats s).2.applyMut (h.cloneStats s).1 op).viewStats s
      = (h.cloneStats s).2.viewStats s := by
  cases op with
  | freeOp => rfl
  | counterOp name v =>
      refine view_eq_of_reads _ _ s ?_ rfl (fun p hp => rfl)
      simp only [Heap.applyMut, Heap.counterMut, Heap.readCounters]
      apply getD_set_ne
      exact ne_of_gt hv.1
  | statOp name n =>
      cases hga : aGet ((h.cloneStats s).2.readCstat (h.cloneStats s).1) name with
      | some a =>
          have hmem : (name, a) ∈ (allocCopies h.histoObjs (h.readCstat s)).1 := by
            rw [← clone_readCstat_clone h s]
            exact mem_of_aGet _ _ _ hga
          have hbound :=
            (allocCopies_fst_bounds (h.readCstat s) h.histoObjs (name, a) hmem).1
          have hgaU : aGet ((h.cloneStats s).2.cstatObjs.getD
              (h.cloneStats s).1.cstatRef []) name = some a := hga
          refine view_eq_of_reads _ _ s ?_ ?_ ?_
          · simp only [Heap.applyMut, Heap.addStatMut, hga, hgaU, Heap.readCounters]
          · simp only [Heap.applyMut, Heap.addStatMut, hga, hgaU, Heap.readCstat]
          · intro p hp
            have hporig : p ∈ h.readCstat s := by
              rwa [clone_readCstat_orig h s hv] at hp
            have hp2 : p.2 < h.histoObjs.length := hv.2.2 p hporig
            have hb2 : h.histoObjs.length ≤ a := hbound
            simp only [Heap.applyMut, Heap.addStatMut, hga, hgaU]
            apply getD_set_ne
            omega
      | none =>
          have hgaU : aGet ((h.cloneStats s).2.cstatObjs.getD
              (h.cloneStats s).1.cstatRef []) name = none := hga
          refine view_eq_of_reads _ _ s ?_ ?_ ?_
          · simp only [Heap.applyMut, Heap.addStatMut, hga, hgaU, Heap.readCounters]
          · simp only [Heap.applyMut, Heap.addStatMut, hga, hgaU, Heap.readCstat]
            apply getD_set_ne
            exact ne_of_gt hv.2.1
          · intro p hp
            have hporig : p ∈ h.readCstat s := by
              rwa [clone_readCstat_orig h s hv] at hp
            have hp2 : p.2 < h.histoObjs.length := hv.2.2 p hporig
            have hlen : h.histoObjs.length ≤ (h.cloneStats s).2.histoObjs.length := by
              rw [cloneStats_histoObjs, allocCopies_snd_len]
              omega
            simp only [Heap.applyMut, Heap.addStatMut, hga, hgaU]
            apply getD_append_lt
            omega

theorem mut_orig_frames_clone (h : Heap) (s : StatsRef) (hv : ValidRef h s) (op : MutOp) :
    ((h.cloneStats s).2.applyMut s op).viewStats (h.cloneStats s).1
      = (h.cloneStats s).2.viewStats (h.cloneStats s).1 := by
  cases op with
  | freeOp => rfl
  | counterOp name v =>
      refine view_eq_of_reads _ _ _ ?_ rfl (fun p hp => rfl)
      simp only [Heap.applyMut, Heap.counterMut, Heap.readCounters]
      apply getD_set_ne
      exact ne_of_lt hv.1
  | statOp name n =>
      cases hga : aGet ((h.cloneStats s).2.readCstat s) name with
      | some a =>
          have hga2 := hga
          rw [clone_readCstat_orig h s hv] at hga2
          have hmem0 : (name, a) ∈ h.readCstat s := mem_of_aGet _ _ _ hga2
          have ha : a < h.histoObjs.length := hv.2.2 (name, a) hmem0
          have hgaU : aGet ((h.cloneStats s).2.cstatObjs.getD s.cstatRef []) name
              = some a := hga
          refine view_eq_of_reads _ _ _ ?_ ?_ ?_
          · simp only [Heap.applyMut, Heap.addStatMut, hga, hgaU, Heap.readCounters]
          · simp only [Heap.applyMut, Heap.addStatMut, hga, hgaU, Heap.readCstat]
          · intro p hp
            have hp2 : h.histoObjs.length ≤ p.2 := by
              rw [clone_readCstat_clone h s] at hp
              exact (allocCopies_fst_bounds _ _ p hp).1
            simp only [Heap.applyMut, Heap.addStatMut, hga, hgaU]
            apply getD_set_ne
            omega
      | none =>
          have hgaU : aGet ((h.cloneStats s).2.cstatObjs.getD s.cstatRef []) name
              = none := hga
          refine view_eq_of_reads _ _ _ ?_ ?_ ?_
          · simp only [Heap.applyMut, Heap.addStatMut, hga, hgaU, Heap.readCounters]
          · simp only [Heap.applyMut, Heap.addStatMut, hga, hgaU, Heap.readCstat]
            apply getD_set_ne
            exact ne_of_lt hv.2.1
          · intro p hp
            have hp2 : p.2 < (h.cloneStats s).2.histoObjs.length := by
              rw [clone_readCstat_clone h s] at hp
              rw [cloneStats_histoObjs]
              exact (allocCopies_fst_bounds _ _ p hp).2
            simp only [Heap.applyMut, Heap.addStatMut, hga, hgaU]
            apply getD_append_lt
            exact hp2

/-- C9: `clone()` builds an independent deep copy — the clone denotes
the same snapshot as the original, and any subsequent `counter`,
`addCustomStat` or `free` mutation applied to the clone leaves the
original's counters, distributions and `report()` output unchanged,
and vice versa. -/
theorem c9_clone_deep_independent (h : Heap) (s : StatsRef) (hv : ValidRef h s) (op : MutOp) :
    ((h.cloneStats s).2.viewStats (h.cloneStats s).1 = h.viewStats s) ∧
    ((h.cloneStats s).2.viewStats s = h.viewStats s) ∧
    (((h.cloneStats s).2.applyMut (h.cloneStats s).1 op).viewStats s
        = (h.cloneStats s).2.viewStats s) ∧
    (((h.cloneStats s).2.applyMut s op).viewStats (h.cloneStats s).1
        = (h.cloneStats s).2.viewStats (h.cloneStats s).1) ∧
    (((h.cloneStats s).2.applyMut (h.cloneStats s).1 op).reportOf s
        = (h.cloneStats s).2.reportOf s) ∧
    (((h.cloneStats s).2.applyMut s op).reportOf (h.cloneStats s).1
        = (h.cloneStats s).2.reportOf (h.cloneStats s).1) :=
  ⟨clone_view_clone h s hv, clone_view_orig h s hv,
   mut_clone_frames_orig h s hv op, mut_orig_frames_clone h s hv op,
   congrArg Stats.report (mut_clone_frames_orig h s hv op),
   congrArg Stats.report (mut_orig_frames_clone h s hv op)⟩

/-- Concrete heap for the C9 witness: one live snapshot with one
counter and one distribution. -/
def heap0 : Heap := ⟨[[("x", 3)]], [[("t", 0)]], [[5]]⟩

/-- Reference to the live snapshot of `heap0`. -/
def ref0 : StatsRef := ⟨0, 0⟩

theorem c9_clone_deep_independent_witness :
    ValidRef heap0 ref0 ∧
    ((heap0.cloneStats ref0).2.applyMut (heap0.cloneStats ref0).1
        (.counterOp "x" 1)).viewStats ref0
      = (heap0.cloneStats ref0).2.viewStats ref0 := by
  have hv : ValidRef heap0 ref0 := by decide
  exact ⟨hv, (c9_clone_deep_independent heap0 ref0 hv (.counterOp "x" 1)).2.2.1⟩

end Stats2
